import Mathlib

/-!
Verification of the SpliceAI variant-scoring core (`spliceai/utils.py`).

Strings of the Python source are embedded as `List Char`; numpy float
arrays as lists of lists of rationals (`Mat`); the per-position
probability tensors produced by the Keras models are abstracted as
functions `Mat → Mat` carried in the `Ann` structure (the models are
external collaborators; only the shape of their output matters here).
-/

namespace SpliceAI

/-! ## Chromosome normalisation (`normalise_chrom`, utils.py lines 76-86) -/

/-- Characters of the Python strip set `'chr'`. -/
def chrSet : List Char := ['c', 'h', 'r']

/-- Membership in the strip set, as a boolean. -/
def memChr (c : Char) : Bool := decide (c ∈ chrSet)

/-- Removes the maximal trailing run of characters satisfying `p`
(the trailing half of Python `str.strip`). -/
def dropTrailing (p : Char → Bool) : List Char → List Char
  | [] => []
  | c :: cs =>
    let r := dropTrailing p cs
    if r = [] ∧ p c then [] else c :: r

/-- Python `s.strip('chr')`: removes the maximal leading and trailing runs
of characters drawn from the set `{'c','h','r'}` (NOT merely a 3-character
prefix removal). -/
def strip_chars (s : List Char) : List Char :=
  dropTrailing memChr (s.dropWhile memChr)

/-- Python `x.startswith('chr')`. -/
def startswith_chr (s : List Char) : Bool := decide (s.take 3 = chrSet)

/-- Embedding of `normalise_chrom(source, target)` (utils.py lines 76-86). -/
def normalise_chrom (source target : List Char) : List Char :=
  if startswith_chr source ∧ ¬ startswith_chr target then strip_chars source
  else if ¬ startswith_chr source ∧ startswith_chr target then
    'c' :: 'h' :: 'r' :: source
  else source

/-! ## One-hot encoding (`one_hot_encode`, utils.py lines 62-73) -/

/-- The lookup table `map` of `one_hot_encode`. -/
def oneHotMap : List (List Nat) :=
  [[0, 0, 0, 0], [1, 0, 0, 0], [0, 1, 0, 0], [0, 0, 1, 0], [0, 0, 0, 1]]

/-- `np.int8` view of a character's byte value (the source string is a
Python 2 byte string; `np.fromstring(seq, np.int8)`). -/
def int8OfChar (c : Char) : Int :=
  let b := c.toNat % 256
  if b < 128 then (b : Int) else (b : Int) - 256

/-- Byte value a character carries after the `.upper()` and the
`.replace` chain of `one_hot_encode`: A/C/G/T/N are rewritten to the
codes 1/2/3/4/0, every other character keeps its own (int8) byte. -/
def charCode (c : Char) : Int :=
  let u := c.toUpper
  if u = 'A' then 1
  else if u = 'C' then 2
  else if u = 'G' then 3
  else if u = 'T' then 4
  else if u = 'N' then 0
  else int8OfChar u

/-- Row of the table selected for one character: `map[code % 5]`
(numpy `%` with a positive modulus yields a non-negative residue, matching
`Int.emod`). -/
def one_hot_char (c : Char) : List Nat :=
  oneHotMap.getD (charCode c % 5).toNat []

/-- Embedding of `one_hot_encode(seq)` (utils.py lines 62-73); the
leading batch axis added by `[None, :]` at the call sites is elided. -/
def one_hot_encode (s : List Char) : List (List Nat) := s.map one_hot_char

/-! ## Alternate-window construction (utils.py line 132) -/

/-- Embedding of `x_alt = x_ref[:wid//2] + str(record.alts[j]) + x_ref[wid//2+ref_len:]`. -/
def build_x_alt (x_ref alt : List Char) (wid ref_len : Nat) : List Char :=
  x_ref.take (wid / 2) ++ alt ++ x_ref.drop (wid / 2 + ref_len)

/-! ## Probability matrices

A model output `y` of shape `(1, L, 3)` (and an input tensor of shape
`(1, W, 4)`) is embedded with the singleton batch axis elided, as a list
of rows, each row a list of rationals. -/

/-- Position-major matrix of rationals. -/
abbrev Mat := List (List ℚ)

/-- Elementwise sum of two matrices (numpy `+` on equal shapes). -/
def matAdd (a b : Mat) : Mat := List.zipWith (List.zipWith (· + ·)) a b

/-- Elementwise difference of two matrices. -/
def matSub (a b : Mat) : Mat := List.zipWith (List.zipWith (· - ·)) a b

/-- Multiplication of every entry by a scalar (numpy `/ k` is `matScale (1/k)`). -/
def matScale (q : ℚ) (a : Mat) : Mat := a.map (List.map (q * ·))

/-- Entry of a matrix at row `k`, column `c` (0 outside the matrix). -/
def entry (a : Mat) (k c : Nat) : ℚ := (a.getD k []).getD c 0

/-- Column `c` of a matrix, e.g. `y[0, :, 1]`. -/
def col (a : Mat) (c : Nat) : List ℚ := a.map (fun r => r.getD c 0)

/-- Per-column maximum over a list of rows: `np.max(y[:, s:e], axis=1)`. -/
def maxRow : Mat → List ℚ
  | [] => []
  | r :: rs => rs.foldl (fun a b => List.zipWith max a b) r

/-- `x[:, ::-1, ::-1]` with the batch axis elided: reverse the position
axis and reverse each 4-channel row (reverse complement of a one-hot
encoded window). -/
def revComp (a : Mat) : Mat := (a.map List.reverse).reverse

/-- Lift a one-hot encoded (natural-number) matrix into `Mat`. -/
def toRatM (a : List (List Nat)) : Mat := a.map (List.map (fun n => ((n : Nat) : ℚ)))

/-- `np.argmax` over a vector: index of the FIRST occurrence of the
maximum (numpy scans left to right and replaces the running best only on
a strictly greater value). -/
def argmaxFirst : List ℚ → Nat
  | [] => 0
  | [_] => 0
  | v :: w :: vs =>
    let j := argmaxFirst (w :: vs)
    if v < (w :: vs).getD j 0 then j + 1 else 0

/-! ## Output reconciliation for indels (utils.py lines 148-159) -/

/-- Deletion branch (`ref_len > 1 and alt_len == 1`): insert `del_len`
zero rows after the alternate allele's position. -/
def reconcile_del (cov alt_len del_len : Nat) (y : Mat) : Mat :=
  y.take (cov / 2 + alt_len)
    ++ List.replicate del_len ([0, 0, 0] : List ℚ)
    ++ y.drop (cov / 2 + alt_len)

/-- Insertion branch (`ref_len == 1 and alt_len > 1`): collapse the
`alt_len` rows spanning the inserted bases into their per-column maximum. -/
def reconcile_ins (cov alt_len : Nat) (y : Mat) : Mat :=
  y.take (cov / 2)
    ++ [maxRow ((y.drop (cov / 2)).take alt_len)]
    ++ y.drop (cov / 2 + alt_len)

/-- The per-position difference of one class column of two outputs,
e.g. `y[1, :, 1] - y[0, :, 1]`. -/
def diffList (a b : Mat) (c : Nat) : List ℚ :=
  List.zipWith (· - ·) (col a c) (col b c)

/-- The four argmax indices of the Delta-Score Extractor
(utils.py lines 163-166), with `y[0] = y_ref` and `y[1] = y_alt`. -/
def delta_indices (y_ref y_alt : Mat) : Nat × Nat × Nat × Nat :=
  (argmaxFirst (diffList y_alt y_ref 1),
   argmaxFirst (diffList y_ref y_alt 1),
   argmaxFirst (diffList y_alt y_ref 2),
   argmaxFirst (diffList y_ref y_alt 2))

/-- `i` is the position of the first occurrence of the maximum of `d`:
it is in range, no entry exceeds the entry at `i`, and every other
maximising index lies at or after `i`. -/
def IsFirstArgmax (d : List ℚ) (i : Nat) : Prop :=
  i < d.length
    ∧ (∀ j, j < d.length → d.getD j 0 ≤ d.getD i 0)
    ∧ (∀ j, j < d.length → d.getD j 0 = d.getD i 0 → i ≤ j)

/-! ## Annotator state and lookups (utils.py lines 9-59) -/

/-- A VCF record as consumed by `get_delta_scores` (the four fields its
malformed-input `try` block touches; the embedding's records always carry
them, so that check always passes here). -/
structure VcfRecord where
  chrom : List Char
  pos : Int
  ref : List Char
  alts : List (List Char)

/-- The long-lived `Annotator` state: the five parallel annotation
columns (with the construction-time `TX_START + 1` already applied to
`tx_starts`), the reference-fasta keys and extraction capability, and
the five ensemble members abstracted as functions on matrices. -/
structure Ann where
  genes : List (List Char)
  chroms : List (List Char)
  strands : List Char
  tx_starts : List Int
  tx_ends : List Int
  fasta_keys : List (List Char)
  fasta : List Char → Int → Int → Option (List Char)
  models : Fin 5 → Mat → Mat

/-- The index set of `get_name_and_strand` (utils.py lines 41-51):
`np.intersect1d` of the chromosome matches and the two interval
conditions, which is exactly the ascending list of indices satisfying
all three. -/
def lookup_idxs (ann : Ann) (chrom : List Char) (pos : Int) : List Nat :=
  let nc := normalise_chrom chrom (ann.chroms.headD [])
  (List.range ann.chroms.length).filter fun i =>
    decide (ann.chroms.getD i [] = nc
      ∧ ann.tx_starts.getD i 0 ≤ pos ∧ pos ≤ ann.tx_ends.getD i 0)

/-- Embedding of `Annotator.get_name_and_strand(chrom, pos)`: the gene
names and strands at the matched indices, and the indices themselves
(for an empty match the source returns `([], [], [])`, which the maps
give as well). -/
def get_name_and_strand (ann : Ann) (chrom : List Char) (pos : Int) :
    List (List Char) × List Char × List Nat :=
  let idxs := lookup_idxs ann chrom pos
  (idxs.map (fun i => ann.genes.getD i []),
   idxs.map (fun i => ann.strands.getD i ' '),
   idxs)

/-- Embedding of `Annotator.get_pos_data(idx, pos)` (utils.py lines 53-59). -/
def get_pos_data (ann : Ann) (idx : Nat) (pos : Int) : Int × Int :=
  (ann.tx_starts.getD idx 0 - pos, ann.tx_ends.getD idx 0 - pos)

/-! ## Delta scores (`get_delta_scores`, utils.py lines 89-180) -/

/-- The sentinel allele `<NON_REF>`. -/
def nonRefSentinel : List Char := ['<', 'N', 'O', 'N', '_', 'R', 'E', 'F', '>']

/-- One emitted score line, with the textual pipe formatting abstracted
into its fields: either the null record `ALT|GENE|.|.|.|.|.|.|.|.` or a
fully scored record. -/
inductive ScoreRec where
  | null (alt gene : List Char)
  | scored (alt gene : List Char)
      (ds_ag ds_al ds_dg ds_dl : ℚ) (p_ag p_al p_dg p_dl : Int)

/-- Body of the double loop of `get_delta_scores` (utils.py lines
115-178) for one `(alt j, gene i)` pair: `none` for a sentinel allele
(no line emitted), the null record for the multi-base ref / multi-base
alt combination, otherwise the scored record.  `seq[a:b]` slices are
taken with both bounds already non-negative, as they are for every
index produced by `lookup_idxs` (the pads are clamped at 0 and are at
most `wid//2`). -/
def score_one (record : VcfRecord) (ann : Ann) (cov wid : Nat)
    (seq : List Char) (idxs : List Nat) (j i : Nat) : Option ScoreRec :=
  let alt := record.alts.getD j []
  let gene := ann.genes.getD (idxs.getD i 0) []
  if alt = nonRefSentinel ∨ alt = ['.'] then none
  else if 1 < record.ref.length ∧ 1 < alt.length then some (.null alt gene)
  else
    let dist := get_pos_data ann (idxs.getD i 0) record.pos
    let pad0 : Int := max ((wid / 2 : Nat) + dist.1) 0
    let pad1 : Int := max ((wid / 2 : Nat) - dist.2) 0
    let ref_len := record.ref.length
    let alt_len := alt.length
    let del_len := ref_len - alt_len
    let x_ref := List.replicate pad0.toNat 'N'
      ++ ((seq.take ((wid : Int) - pad1).toNat).drop pad0.toNat)
      ++ List.replicate pad1.toNat 'N'
    let x_alt := build_x_alt x_ref alt wid ref_len
    let strand := ann.strands.getD (idxs.getD i 0) '+'
    let xr0 := toRatM (one_hot_encode x_ref)
    let xa0 := toRatM (one_hot_encode x_alt)
    let xr := if strand = '-' then revComp xr0 else xr0
    let xa := if strand = '-' then revComp xa0 else xa0
    let yr0 := matScale (1 / 5)
      (matAdd (matAdd (matAdd (matAdd (ann.models 0 xr) (ann.models 1 xr))
        (ann.models 2 xr)) (ann.models 3 xr)) (ann.models 4 xr))
    let ya0 := matScale (1 / 5)
      (matAdd (matAdd (matAdd (matAdd (ann.models 0 xa) (ann.models 1 xa))
        (ann.models 2 xa)) (ann.models 3 xa)) (ann.models 4 xa))
    let y_ref := if strand = '-' then yr0.reverse else yr0
    let ya1 := if strand = '-' then ya0.reverse else ya0
    let y_alt :=
      if 1 < ref_len ∧ alt_len = 1 then reconcile_del cov alt_len del_len ya1
      else if ref_len = 1 ∧ 1 < alt_len then reconcile_ins cov alt_len ya1
      else ya1
    let ids := delta_indices y_ref y_alt
    some (.scored alt gene
      (entry y_alt ids.1 1 - entry y_ref ids.1 1)
      (entry y_ref ids.2.1 1 - entry y_alt ids.2.1 1)
      (entry y_alt ids.2.2.1 2 - entry y_ref ids.2.2.1 2)
      (entry y_ref ids.2.2.2 2 - entry y_alt ids.2.2.2 2)
      ((ids.1 : Int) - (cov / 2 : Nat))
      ((ids.2.1 : Int) - (cov / 2 : Nat))
      ((ids.2.2.1 : Int) - (cov / 2 : Nat))
      ((ids.2.2.2 : Int) - (cov / 2 : Nat)))

/-- The double `for` loop of `get_delta_scores`, appending in
`j`-major, `i`-minor order. -/
def delta_loop (record : VcfRecord) (ann : Ann) (cov wid : Nat)
    (seq : List Char) (idxs : List Nat) : List ScoreRec :=
  (List.range record.alts.length).flatMap fun j =>
    (List.range idxs.length).filterMap fun i =>
      score_one record ann cov wid seq idxs j i

/-- Embedding of `get_delta_scores(record, ann, cov)` (utils.py lines
89-180): the annotation-overlap, sequence-extraction and
reference-match gates followed by the scoring loop. -/
def get_delta_scores (record : VcfRecord) (ann : Ann) (cov : Nat) :
    List ScoreRec :=
  let wid := 10000 + cov
  let idxs := (get_name_and_strand ann record.chrom record.pos).2.2
  if idxs = [] then []
  else
    match ann.fasta (normalise_chrom record.chrom (ann.fasta_keys.headD []))
        (record.pos - (wid / 2 : Nat) - 1) (record.pos + (wid / 2 : Nat)) with
    | none => []
    | some seq =>
      if ((seq.drop (wid / 2)).take record.ref.length).map Char.toUpper
          = record.ref then
        delta_loop record ann cov wid seq idxs
      else []

/-! ## Attribution engine (`calculate_importance_score`, utils.py lines 182-223)

The code handles tensors of shape `(batch, L, 3)`, wraps both the
baseline `Y` and each perturbation average `Ii` with the same `[None, :]`
and indexes both with the same `t`; with the singleton batch axis elided
(as everywhere in this embedding) `Y[t] - Ii[t]` is the elementwise
difference of the two `(L, 3)` matrices. -/

/-- The one-hot row forced into position `pos` for each of the four
counterfactual bases. -/
def baseVec : Fin 4 → List ℚ
  | 0 => [1, 0, 0, 0]
  | 1 => [0, 1, 0, 0]
  | 2 => [0, 0, 1, 0]
  | 3 => [0, 0, 0, 1]

/-- The ensemble mean `np.mean([m.predict(X) for m in models], axis=0)`:
sum of the five predictions divided by 5. -/
def ensemble5 (models : Fin 5 → Mat → Mat) (x : Mat) : Mat :=
  matScale (1 / 5)
    (matAdd (matAdd (matAdd (matAdd (models 0 x) (models 1 x))
      (models 2 x)) (models 3 x)) (models 4 x))

/-- One round `i` of the perturbation loop (utils.py lines 199-221):
position `(WINDOW_SIZE - N)//2 + i` of `X` is forced to each of the four
bases, each of the five models is run on each of the four
counterfactuals, the twenty predictions are summed and divided by 20,
and the recorded row is `Y - Ii`. -/
def calc_importance_row (models : Fin 5 → Mat → Mat) (x : Mat) (i : Nat) : Mat :=
  let y := ensemble5 models x
  let pos := (x.length - 1001) / 2 + i
  let xa := x.set pos [1, 0, 0, 0]
  let xc := x.set pos [0, 1, 0, 0]
  let xg := x.set pos [0, 0, 1, 0]
  let xt := x.set pos [0, 0, 0, 1]
  let i0 := matAdd (matAdd (matAdd (models 0 xa) (models 0 xc)) (models 0 xg)) (models 0 xt)
  let i1 := matAdd (matAdd (matAdd (models 1 xa) (models 1 xc)) (models 1 xg)) (models 1 xt)
  let i2 := matAdd (matAdd (matAdd (models 2 xa) (models 2 xc)) (models 2 xg)) (models 2 xt)
  let i3 := matAdd (matAdd (matAdd (models 3 xa) (models 3 xc)) (models 3 xg)) (models 3 xt)
  let i4 := matAdd (matAdd (matAdd (models 4 xa) (models 4 xc)) (models 4 xg)) (models 4 xt)
  let ii := matScale (1 / 20) (matAdd (matAdd (matAdd (matAdd i0 i1) i2) i3) i4)
  matSub y ii

/-- Embedding of `calculate_importance_score(X, models, t)`: the
`N = 1001` perturbation rounds in order. -/
def calculate_importance_score (models : Fin 5 → Mat → Mat) (x : Mat) :
    List Mat :=
  (List.range 1001).map (calc_importance_row models x)

/-! ## `get_importance_score` (utils.py lines 227-279)

The function repeats the gates and the double loop of
`get_delta_scores`, but its final statement is
`return calculate_importance_score(x_alt, ann.models, t)`, evaluated
once after both loops have finished.  Python evaluates the arguments
left to right: `x_alt` is a local name, assigned only by a loop
iteration whose allele is neither a sentinel nor the multi-base/multi-base
combination, so if no such iteration ran the evaluation raises
`UnboundLocalError` on `x_alt`; otherwise the name `t`, which is bound
nowhere (neither in the function nor at module scope), raises
`NameError`.  The loop's other computations bind only names that are
dead at the return, so the embedding records just which exception the
return statement raises. -/

/-- A Python name-resolution failure at the final return statement. -/
inductive PyError where
  | nameError (n : List Char)
  | unboundLocal (n : List Char)
deriving DecidableEq

/-- `True` exactly when some loop iteration of `get_importance_score`
assigns `x_alt`: some allele index `j` and gene index `i` with the
allele neither `<NON_REF>` nor `.`, and not the multi-base ref /
multi-base alt combination. -/
def x_alt_bound (record : VcfRecord) (idxs : List Nat) : Bool :=
  (List.range record.alts.length).any fun j =>
    (List.range idxs.length).any fun _ =>
      let alt := record.alts.getD j []
      ¬(alt = nonRefSentinel ∨ alt = ['.'])
        ∧ ¬(1 < record.ref.length ∧ 1 < alt.length)

/-- Embedding of `get_importance_score(record, ann, cov)`: the early
returns hand back the (empty) `delta_scores` list (`Sum.inl`), a
successful final return would hand back the attribution map
(`Sum.inr`), and an uncaught exception is an `Except.error`. -/
def get_importance_score (record : VcfRecord) (ann : Ann) (cov : Nat) :
    Except PyError (List ScoreRec ⊕ List Mat) :=
  let wid := 10000 + cov
  let idxs := (get_name_and_strand ann record.chrom record.pos).2.2
  if idxs = [] then .ok (.inl [])
  else
    match ann.fasta (normalise_chrom record.chrom (ann.fasta_keys.headD []))
        (record.pos - (wid / 2 : Nat) - 1) (record.pos + (wid / 2 : Nat)) with
    | none => .ok (.inl [])
    | some seq =>
      if ((seq.drop (wid / 2)).take record.ref.length).map Char.toUpper
          = record.ref then
        if x_alt_bound record idxs then .error (.nameError ['t'])
        else .error (.unboundLocal ['x', '_', 'a', 'l', 't'])
      else .ok (.inl [])

/-! ## Helper lemmas -/

/-- A character surviving at the head of a `dropWhile` fails the predicate. -/
lemma head?_dropWhile_false (p : Char → Bool) (l : List Char) (a : Char)
    (h : (l.dropWhile p).head? = some a) : p a = false := by
  induction l with
  | nil => simp at h
  | cons c cs ih =>
    rw [List.dropWhile_cons] at h
    by_cases hc : p c
    · rw [if_pos hc] at h
      exact ih h
    · rw [if_neg hc] at h
      simp only [List.head?_cons, Option.some.injEq] at h
      rw [← h]
      exact Bool.of_not_eq_true hc

/-- `dropTrailing` preserves the head of its argument when it returns a
non-empty list. -/
lemma head?_dropTrailing (p : Char → Bool) (l : List Char) (a : Char)
    (h : (dropTrailing p l).head? = some a) : l.head? = some a := by
  cases l with
  | nil => simp [dropTrailing] at h
  | cons c cs =>
    rw [dropTrailing] at h
    split at h
    · simp at h
    · simp only [List.head?_cons, Option.some.injEq] at h ⊢
      exact h

/-- If the head of a list's `take (n+1)` is known, so is the list's head. -/
lemma head?_of_take_cons (l t : List Char) (n : Nat) (a : Char)
    (h : l.take (n + 1) = a :: t) : l.head? = some a := by
  cases l with
  | nil => simp at h
  | cons c cs =>
    simp only [List.take_succ_cons, List.cons.injEq] at h
    simp [h.1]

/-- A stripped chromosome label never starts with `chr` again: its first
character, if any, is outside the strip set. -/
lemma startswith_strip_chars_false (s : List Char) :
    startswith_chr (strip_chars s) = false := by
  by_contra hne
  have h : startswith_chr (strip_chars s) = true := by
    cases hb : startswith_chr (strip_chars s)
    · exact absurd hb hne
    · rfl
  have h3 : (strip_chars s).take 3 = chrSet := of_decide_eq_true h
  have hh : (strip_chars s).head? = some 'c' := by
    exact head?_of_take_cons _ _ 2 _ h3
  have hh2 : ((s.dropWhile memChr).head?) = some 'c' :=
    head?_dropTrailing memChr _ _ hh
  have := head?_dropWhile_false memChr s 'c' hh2
  simp [memChr, chrSet] at this

/-- `dropTrailing` leaves a list ending outside the predicate untouched. -/
lemma dropTrailing_append_singleton (p : Char → Bool) (l : List Char)
    (a : Char) (ha : p a = false) :
    dropTrailing p (l ++ [a]) = l ++ [a] := by
  induction l with
  | nil => simp [dropTrailing, ha]
  | cons c cs ih =>
    rw [List.cons_append, dropTrailing, ih]
    have : ¬(cs ++ [a] = [] ∧ p c) := by
      intro hca
      exact absurd hca.1 (by simp)
    rw [if_neg this]

/-- Full characterisation of `argmaxFirst`: it lands in range, attains
the maximum, and every earlier entry is strictly below it. -/
lemma argmaxFirst_spec (l : List ℚ) (hl : l ≠ []) :
    argmaxFirst l < l.length
      ∧ (∀ j, j < l.length → l.getD j 0 ≤ l.getD (argmaxFirst l) 0)
      ∧ (∀ j, j < argmaxFirst l → l.getD j 0 < l.getD (argmaxFirst l) 0) := by
  induction l with
  | nil => exact absurd rfl hl
  | cons v tail ih =>
    cases tail with
    | nil =>
      refine ⟨by simp [argmaxFirst], ?_, ?_⟩
      · intro j hj
        have hj0 : j = 0 := by simpa using hj
        subst hj0
        simp [argmaxFirst]
      · intro j hj
        simp [argmaxFirst] at hj
    | cons w vs =>
      obtain ⟨ihlt, ihmax, ihstrict⟩ := ih (by simp)
      by_cases hcmp : v < (w :: vs).getD (argmaxFirst (w :: vs)) 0
      · have heq : argmaxFirst (v :: w :: vs) = argmaxFirst (w :: vs) + 1 := by
          rw [argmaxFirst, if_pos hcmp]
        refine ⟨?_, ?_, ?_⟩
        · rw [heq, List.length_cons]
          exact Nat.succ_lt_succ ihlt
        · intro j hj
          rw [heq, List.getD_cons_succ]
          cases j with
          | zero => exact le_of_lt (by simpa using hcmp)
          | succ j' =>
            rw [List.getD_cons_succ]
            exact ihmax j' (by simpa using hj)
        · intro j hj
          rw [heq] at hj
          rw [heq, List.getD_cons_succ]
          cases j with
          | zero => simpa using hcmp
          | succ j' =>
            rw [List.getD_cons_succ]
            exact ihstrict j' (by omega)
      · have heq : argmaxFirst (v :: w :: vs) = 0 := by
          rw [argmaxFirst, if_neg hcmp]
        have hle : (w :: vs).getD (argmaxFirst (w :: vs)) 0 ≤ v :=
          not_lt.mp hcmp
        refine ⟨?_, ?_, ?_⟩
        · rw [heq]
          simp
        · intro j hj
          rw [heq, List.getD_cons_zero]
          cases j with
          | zero => simp
          | succ j' =>
            rw [List.getD_cons_succ]
            exact le_trans (ihmax j' (by simpa using hj)) hle
        · intro j hj
          rw [heq] at hj
          exact absurd hj (by omega)

/-- `argmaxFirst` computes the first occurrence of the maximum. -/
lemma argmaxFirst_isFirst (l : List ℚ) (hl : l ≠ []) :
    IsFirstArgmax l (argmaxFirst l) := by
  obtain ⟨hlt, hmax, hstrict⟩ := argmaxFirst_spec l hl
  refine ⟨hlt, hmax, ?_⟩
  intro j hjl hje
  by_contra hji
  have hj : j < argmaxFirst l := by omega
  exact absurd hje (ne_of_lt (hstrict j hj))

/-! ## Claim C1 — length of the spliced alternate window -/

/-- Claim C1, as stated, is false: splicing a 2-base alternate allele
over a 1-base reference allele at the center of the 10001-base
reference window yields a 10002-base window, not a 10001-base one. -/
theorem claim_C1_counterexample :
    (build_x_alt (List.replicate 10001 'N') ['A', 'G'] 10001 1).length = 10002
      ∧ (build_x_alt (List.replicate 10001 'N') ['A', 'G'] 10001 1).length
          ≠ 10001 := by
  have h : (build_x_alt (List.replicate 10001 'N') ['A', 'G'] 10001 1).length
      = 10002 := by
    simp only [build_x_alt, List.length_append, List.length_take,
      List.length_drop, List.length_replicate, List.length_cons,
      List.length_nil]
    omega
  exact ⟨h, by rw [h]; decide⟩

/-- Claim C1 amended: the alternate window spliced over the
`len(reference_allele)` center bases of a length-`W` reference window has
total length `W - len(reference_allele) + len(alternate_allele)`; this
equals `W` exactly when the two allele lengths agree. -/
theorem claim_C1_amended (x_ref alt : List Char) (wid ref_len : Nat)
    (hlen : x_ref.length = wid) (hfit : wid / 2 + ref_len ≤ wid) :
    (build_x_alt x_ref alt wid ref_len).length
        = wid - ref_len + alt.length
      ∧ ((build_x_alt x_ref alt wid ref_len).length = wid
          ↔ alt.length = ref_len) := by
  simp only [build_x_alt, List.length_append, List.length_take,
    List.length_drop, hlen]
  omega

/-- Witness for C1 at the counterexample's shape. -/
theorem claim_C1_witness :
    (List.replicate 10001 'N').length = 10001
      ∧ (build_x_alt (List.replicate 10001 'N') ['A', 'G'] 10001 1).length
          = 10001 - 1 + 2 :=
  ⟨by rw [List.length_replicate],
   (claim_C1_amended (List.replicate 10001 'N') ['A', 'G'] 10001 1
      (by rw [List.length_replicate]) (by norm_num)).1⟩

/-! ## Claim C3 — one-hot encoding of the alphabet -/

/-- Claim C3, as stated, is false: the unknown symbol `X` (byte 88,
`88 % 5 = 3`) is encoded as the `G` row `[0,0,1,0]`, not as the all-zero
vector. -/
theorem claim_C3_counterexample :
    one_hot_encode ['X'] = [[0, 0, 1, 0]]
      ∧ one_hot_encode ['X'] ≠ [[0, 0, 0, 0]] := by
  constructor
  · decide
  · decide

/-- Claim C3 amended: `one_hot_encode` maps, case-insensitively,
`A`/`C`/`G`/`T` to their indicator rows and `N` to the all-zero row; any
other symbol is encoded as row `(int8 byte of its uppercased form) % 5`
of the lookup table, which is the all-zero row exactly when that residue
is 0. -/
theorem claim_C3_amended (c : Char) :
    (c.toUpper = 'A' → one_hot_encode [c] = [[1, 0, 0, 0]])
      ∧ (c.toUpper = 'C' → one_hot_encode [c] = [[0, 1, 0, 0]])
      ∧ (c.toUpper = 'G' → one_hot_encode [c] = [[0, 0, 1, 0]])
      ∧ (c.toUpper = 'T' → one_hot_encode [c] = [[0, 0, 0, 1]])
      ∧ (c.toUpper = 'N' → one_hot_encode [c] = [[0, 0, 0, 0]])
      ∧ (c.toUpper ∉ (['A', 'C', 'G', 'T', 'N'] : List Char) →
          (one_hot_encode [c] = [[0, 0, 0, 0]]
            ↔ int8OfChar c.toUpper % 5 = 0)) := by
  refine ⟨fun h => ?_, fun h => ?_, fun h => ?_, fun h => ?_, fun h => ?_,
    fun h => ?_⟩
  · simp [one_hot_encode, one_hot_char, charCode, h, oneHotMap]
  · simp [one_hot_encode, one_hot_char, charCode, h, oneHotMap]
  · simp [one_hot_encode, one_hot_char, charCode, h, oneHotMap]
  · simp [one_hot_encode, one_hot_char, charCode, h, oneHotMap]
  · simp [one_hot_encode, one_hot_char, charCode, h, oneHotMap]
  · simp only [List.mem_cons, List.mem_singleton, not_or] at h
    obtain ⟨hA, hC, hG, hT, hN⟩ := h
    have hcode : charCode c = int8OfChar c.toUpper := by
      simp [charCode, hA, hC, hG, hT, hN]
    have hrow : one_hot_encode [c]
        = [oneHotMap.getD (int8OfChar c.toUpper % 5).toNat []] := by
      simp only [one_hot_encode, List.map_cons, List.map_nil, one_hot_char,
        hcode]
    rw [hrow]
    obtain h01 | h01 | h01 | h01 | h01 :
        int8OfChar c.toUpper % 5 = 0 ∨ int8OfChar c.toUpper % 5 = 1
          ∨ int8OfChar c.toUpper % 5 = 2 ∨ int8OfChar c.toUpper % 5 = 3
          ∨ int8OfChar c.toUpper % 5 = 4 := by omega
    · rw [h01]; decide
    · rw [h01]; decide
    · rw [h01]; decide
    · rw [h01]; decide
    · rw [h01]; decide

/-- Witness for C3 at `a` and at the non-alphabet symbol `X`. -/
theorem claim_C3_witness :
    one_hot_encode ['a'] = [[1, 0, 0, 0]]
      ∧ (one_hot_encode ['X'] = [[0, 0, 0, 0]]
          ↔ int8OfChar 'X' % 5 = 0) := by
  constructor
  · exact (claim_C3_amended 'a').1 (by decide)
  · have h := (claim_C3_amended 'X').2.2.2.2.2 (by decide)
    simpa using h

/-! ## Claim C9 — semantics of `normalise_chrom` -/

/-- Claim C9, as stated, is false: for a source starting with `chr`
whose remainder consists of strip-set characters, Python's
`strip('chr')` removes more than the three leading characters; at
source `chrrr` and target `1` the result is the empty string rather
than `rr`. -/
theorem claim_C9_counterexample :
    normalise_chrom ['c', 'h', 'r', 'r', 'r'] ['1'] = []
      ∧ normalise_chrom ['c', 'h', 'r', 'r', 'r'] ['1']
          ≠ (['c', 'h', 'r', 'r', 'r'] : List Char).drop 3 := by
  constructor
  · decide
  · decide

/-- Claim C9 amended: when exactly the source starts with `chr`, the
result is the source with its maximal leading and trailing runs of
characters from `{c,h,r}` removed (Python `str.strip('chr')`), which
equals dropping exactly the three leading characters whenever the
remainder neither begins nor ends with such a character; when exactly
the target starts with `chr`, the result is `chr` prepended to the
source; otherwise the source is returned unchanged.  The function is
total with no failure mode. -/
theorem claim_C9_amended (s t : List Char) :
    (startswith_chr s → ¬ startswith_chr t →
        normalise_chrom s t = strip_chars s)
      ∧ (startswith_chr s → ¬ startswith_chr t →
          (s.drop 3).dropWhile memChr = s.drop 3 →
          dropTrailing memChr (s.drop 3) = s.drop 3 →
          normalise_chrom s t = s.drop 3)
      ∧ (¬ startswith_chr s → startswith_chr t →
          normalise_chrom s t = 'c' :: 'h' :: 'r' :: s)
      ∧ ((startswith_chr s ↔ startswith_chr t) → normalise_chrom s t = s) := by
  refine ⟨fun hs ht => ?_, fun hs ht hdw hdt => ?_, fun hs ht => ?_,
    fun hiff => ?_⟩
  · rw [normalise_chrom, if_pos ⟨hs, ht⟩]
  · rw [normalise_chrom, if_pos ⟨hs, ht⟩]
    have h3 : s.take 3 = chrSet := of_decide_eq_true hs
    have hsplit : s = 'c' :: 'h' :: 'r' :: s.drop 3 := by
      conv_lhs => rw [← List.take_append_drop 3 s]
      rw [h3]; rfl
    rw [strip_chars]
    conv_lhs => rw [hsplit]
    rw [List.dropWhile_cons, if_pos (by decide), List.dropWhile_cons,
      if_pos (by decide), List.dropWhile_cons, if_pos (by decide), hdw, hdt]
  · rw [normalise_chrom, if_neg (fun hc => hs hc.1),
      if_pos ⟨hs, ht⟩]
  · rw [normalise_chrom]
    by_cases hs : startswith_chr s
    · rw [if_neg (fun hc => hc.2 (hiff.mp hs)),
        if_neg (fun hc => hc.1 hs)]
    · rw [if_neg (fun hc => hs hc.1),
        if_neg (fun hc => hs (hiff.mpr hc.2))]

/-- Witness for C9: source `chr1` against target `1` normalises to `1`. -/
theorem claim_C9_witness :
    normalise_chrom ['c', 'h', 'r', '1'] ['1'] = ['1'] := by
  have h := (claim_C9_amended ['c', 'h', 'r', '1'] ['1']).2.1
    (by decide) (by decide) (by decide) (by decide)
  simpa using h

/-! ## Claim C10 — idempotence of `normalise_chrom` -/

/-- Claim C10: `normalise_chrom` is idempotent for a fixed target. -/
theorem claim_C10 (s t : List Char) :
    normalise_chrom (normalise_chrom s t) t = normalise_chrom s t := by
  by_cases hs : startswith_chr s = true <;>
    by_cases ht : startswith_chr t = true
  · -- both prefixed: identity twice
    simp [normalise_chrom, hs, ht]
  · -- only the source prefixed: strip, and the strip result is not prefixed
    have hinner : normalise_chrom s t = strip_chars s := by
      simp [normalise_chrom, hs, ht]
    have h1 : ¬(startswith_chr (strip_chars s) ∧ ¬ startswith_chr t) := by
      intro hc
      have hf := hc.1
      rw [startswith_strip_chars_false s] at hf
      exact absurd hf (by simp)
    have h2 : ¬(¬ startswith_chr (strip_chars s) ∧ startswith_chr t) := by
      intro hc
      exact ht hc.2
    rw [hinner, normalise_chrom, if_neg h1, if_neg h2]
  · -- only the target prefixed: prepend, and the result is prefixed
    have hinner : normalise_chrom s t = 'c' :: 'h' :: 'r' :: s := by
      simp [normalise_chrom, hs, ht]
    have hpre : startswith_chr ('c' :: 'h' :: 'r' :: s) = true := by
      simp [startswith_chr, chrSet]
    have h1 : ¬(startswith_chr ('c' :: 'h' :: 'r' :: s)
        ∧ ¬ startswith_chr t) := by
      intro hc
      exact hc.2 ht
    have h2 : ¬(¬ startswith_chr ('c' :: 'h' :: 'r' :: s)
        ∧ startswith_chr t) := by
      intro hc
      exact hc.1 hpre
    rw [hinner, normalise_chrom, if_neg h1, if_neg h2]
  · -- neither prefixed: identity twice
    simp [normalise_chrom, hs, ht]

/-! ## Claim C4 — annotation lookup -/

/-- Claim C4: `get_name_and_strand` returns exactly the indices whose
chromosome matches the normalised query and whose inclusive interval
`[tx_start, tx_end]` contains the position; the indices come back in
ascending (index) order, and the gene names are those indices' genes in
the same order. -/
theorem claim_C4 (ann : Ann) (chrom : List Char) (pos : Int) (i : Nat) :
    (i ∈ (get_name_and_strand ann chrom pos).2.2
        ↔ i < ann.chroms.length
          ∧ ann.chroms.getD i []
              = normalise_chrom chrom (ann.chroms.headD [])
          ∧ ann.tx_starts.getD i 0 ≤ pos ∧ pos ≤ ann.tx_ends.getD i 0)
      ∧ (get_name_and_strand ann chrom pos).2.2.Pairwise (· < ·)
      ∧ (get_name_and_strand ann chrom pos).1
          = (get_name_and_strand ann chrom pos).2.2.map
              (fun j => ann.genes.getD j []) := by
  refine ⟨?_, ?_, rfl⟩
  · simp only [get_name_and_strand, lookup_idxs, List.mem_filter,
      List.mem_range, decide_eq_true_eq]
  · exact List.Pairwise.sublist (List.filter_sublist _)
      (List.pairwise_lt_range _)

/-! ## Claim C5 — insertion reconciliation -/

/-- Claim C5: for an insertion (`ref_len = 1`, `alt_len = 1 + k`,
`k ≥ 1`), collapsing the `alt_len` output rows spanning the inserted
bases into their per-class maximum restores the reference output's
length, and the collapsed row sits at the variant's output position. -/
theorem claim_C5 (cov k : Nat) (y_ref y_alt : Mat) (hk : 1 ≤ k)
    (hcov : 1 ≤ cov) (href : y_ref.length = cov)
    (halt : y_alt.length = cov + k) :
    (reconcile_ins cov (1 + k) y_alt).length = y_ref.length
      ∧ (reconcile_ins cov (1 + k) y_alt).getD (cov / 2) []
          = maxRow ((y_alt.drop (cov / 2)).take (1 + k)) := by
  have htk : (y_alt.take (cov / 2)).length = cov / 2 := by
    rw [List.length_take]
    omega
  constructor
  · simp only [reconcile_ins, List.length_append, List.length_take,
      List.length_drop, List.length_cons, List.length_nil]
    omega
  · have hlen1 : cov / 2 < (y_alt.take (cov / 2)
        ++ [maxRow ((y_alt.drop (cov / 2)).take (1 + k))]).length := by
      simp only [List.length_append, htk, List.length_cons, List.length_nil]
      omega
    rw [reconcile_ins, List.getD_append _ _ _ _ hlen1,
      List.getD_append_right _ _ _ _ htk.le, htk, Nat.sub_self,
      List.getD_cons_zero]

/-- Witness for C5 at a concrete one-base insertion. -/
theorem claim_C5_witness :
    ([[(1 : ℚ), 2, 3]] : Mat).length = 1
      ∧ ((reconcile_ins 1 2 [[(0 : ℚ), 1, 2], [5, 0, 1]]).length
            = ([[(1 : ℚ), 2, 3]] : Mat).length
          ∧ (reconcile_ins 1 2 [[(0 : ℚ), 1, 2], [5, 0, 1]]).getD 0 []
              = maxRow (([[(0 : ℚ), 1, 2], [5, 0, 1]] : Mat).drop 0 |>.take 2)) :=
  ⟨rfl, claim_C5 1 1 [[(1 : ℚ), 2, 3]] [[(0 : ℚ), 1, 2], [5, 0, 1]]
    (by norm_num) (by norm_num) rfl rfl⟩

/-! ## Claim C7 — argmax tie-breaking -/

/-- Claim C7: each of the four reported indices of the Delta-Score
Extractor is the first (lowest-index) occurrence of the maximum of its
difference sequence, so a tie always resolves to the lowest offset. -/
theorem claim_C7 (y_ref y_alt : Mat) (h1 : y_ref ≠ []) (h2 : y_alt ≠ []) :
    IsFirstArgmax (diffList y_alt y_ref 1) (delta_indices y_ref y_alt).1
      ∧ IsFirstArgmax (diffList y_ref y_alt 1) (delta_indices y_ref y_alt).2.1
      ∧ IsFirstArgmax (diffList y_alt y_ref 2) (delta_indices y_ref y_alt).2.2.1
      ∧ IsFirstArgmax (diffList y_ref y_alt 2) (delta_indices y_ref y_alt).2.2.2 := by
  have hne : ∀ (a b : Mat) (c : Nat), a ≠ [] → b ≠ [] → diffList a b c ≠ [] := by
    intro a b c ha hb
    have hla : 0 < a.length := List.length_pos.mpr ha
    have hlb : 0 < b.length := List.length_pos.mpr hb
    have : 0 < (diffList a b c).length := by
      simp only [diffList, List.length_zipWith, col, List.length_map]
      omega
    exact List.length_pos.mp this
  exact ⟨argmaxFirst_isFirst _ (hne _ _ _ h2 h1),
    argmaxFirst_isFirst _ (hne _ _ _ h1 h2),
    argmaxFirst_isFirst _ (hne _ _ _ h2 h1),
    argmaxFirst_isFirst _ (hne _ _ _ h1 h2)⟩

/-- Witness for C7 on concrete two-row outputs with a tie: both rows of
the acceptor-gain difference are equal, and the reported index is 0. -/
theorem claim_C7_witness :
    ([[(0 : ℚ), 1, 0], [0, 1, 0]] : Mat) ≠ []
      ∧ IsFirstArgmax
          (diffList [[(0 : ℚ), 2, 0], [0, 2, 0]] [[(0 : ℚ), 1, 0], [0, 1, 0]] 1)
          (delta_indices [[(0 : ℚ), 1, 0], [0, 1, 0]]
            [[(0 : ℚ), 2, 0], [0, 2, 0]]).1 :=
  ⟨by decide,
   (claim_C7 [[(0 : ℚ), 1, 0], [0, 1, 0]] [[(0 : ℚ), 2, 0], [0, 2, 0]]
      (by decide) (by decide)).1⟩

/-! ## Claims C6 and C2 — the reference-match gate and the dead return -/

/-- Case-insensitive equality of two character strings. -/
def ciEq (a b : List Char) : Prop := a.map Char.toUpper = b.map Char.toUpper

/-- Uppercasing fixes a string over the VCF allele alphabet `{A,C,G,T}`. -/
lemma upper_fixed_of_acgt (l : List Char)
    (h : ∀ c ∈ l, c ∈ (['A', 'C', 'G', 'T'] : List Char)) :
    l.map Char.toUpper = l := by
  induction l with
  | nil => rfl
  | cons c cs ih =>
    have hc := h c (by simp)
    have hcs := ih fun x hx => h x (List.mem_cons_of_mem _ hx)
    simp only [List.map_cons, hcs, List.cons.injEq, and_true]
    fin_cases hc <;> decide

/-- Dropping from a replicated list leaves a replicated list. -/
lemma replicate_drop (a : Char) (n m : Nat) :
    (List.replicate n a).drop m = List.replicate (n - m) a := by
  induction m generalizing n with
  | zero => simp
  | succ m ih =>
    cases n with
    | zero => simp
    | succ n' =>
      rw [List.replicate_succ, List.drop_succ_cons, ih, Nat.succ_sub_succ]

/-- Claim C6: with the annotation and sequence gates already passed and
the declared reference allele drawn from `{A,C,G,T}` (the data model's
alphabet), `get_delta_scores` returns the empty score list whenever the
window's center bases differ case-insensitively from the declared
reference allele, and proceeds to the scoring loop whenever they agree. -/
theorem claim_C6 (record : VcfRecord) (ann : Ann) (cov : Nat)
    (seq : List Char)
    (h1 : (get_name_and_strand ann record.chrom record.pos).2.2 ≠ [])
    (h2 : ann.fasta
        (normalise_chrom record.chrom (ann.fasta_keys.headD []))
        (record.pos - ((10000 + cov) / 2 : Nat) - 1)
        (record.pos + ((10000 + cov) / 2 : Nat)) = some seq)
    (h3 : ∀ c ∈ record.ref, c ∈ (['A', 'C', 'G', 'T'] : List Char)) :
    (¬ ciEq ((seq.drop ((10000 + cov) / 2)).take record.ref.length)
          record.ref →
        get_delta_scores record ann cov = [])
      ∧ (ciEq ((seq.drop ((10000 + cov) / 2)).take record.ref.length)
            record.ref →
          get_delta_scores record ann cov
            = delta_loop record ann cov (10000 + cov) seq
                (get_name_and_strand ann record.chrom record.pos).2.2) := by
  have hfix : record.ref.map Char.toUpper = record.ref :=
    upper_fixed_of_acgt _ h3
  have hiff :
      (((seq.drop ((10000 + cov) / 2)).take record.ref.length).map
          Char.toUpper = record.ref)
        ↔ ciEq ((seq.drop ((10000 + cov) / 2)).take record.ref.length)
            record.ref := by
    rw [ciEq, hfix]
  constructor
  · intro hne
    have hcheck : ¬(((seq.drop ((10000 + cov) / 2)).take
        record.ref.length).map Char.toUpper = record.ref) :=
      fun hcc => hne (hiff.mp hcc)
    simp only [get_delta_scores, h2]
    rw [if_neg h1, if_neg hcheck]
  · intro hye
    simp only [get_delta_scores, h2]
    rw [if_neg h1, if_pos (hiff.mpr hye)]

/-- Claim C2: once the overlap, sequence and reference gates pass,
`get_importance_score` always raises at its final return statement —
`NameError` on the undefined name `t` when some allele iteration bound
`x_alt`, `UnboundLocalError` on `x_alt` otherwise — and in particular
never returns a value. -/
theorem claim_C2 (record : VcfRecord) (ann : Ann) (cov : Nat)
    (seq : List Char)
    (h1 : (get_name_and_strand ann record.chrom record.pos).2.2 ≠ [])
    (h2 : ann.fasta
        (normalise_chrom record.chrom (ann.fasta_keys.headD []))
        (record.pos - ((10000 + cov) / 2 : Nat) - 1)
        (record.pos + ((10000 + cov) / 2 : Nat)) = some seq)
    (h3 : ((seq.drop ((10000 + cov) / 2)).take record.ref.length).map
        Char.toUpper = record.ref) :
    (∀ v, get_importance_score record ann cov ≠ .ok v)
      ∧ (x_alt_bound record
            (get_name_and_strand ann record.chrom record.pos).2.2 = true →
          get_importance_score record ann cov = .error (.nameError ['t']))
      ∧ (x_alt_bound record
            (get_name_and_strand ann record.chrom record.pos).2.2 = false →
          get_importance_score record ann cov
            = .error (.unboundLocal ['x', '_', 'a', 'l', 't'])) := by
  have hmain : get_importance_score record ann cov
      = if x_alt_bound record
            (get_name_and_strand ann record.chrom record.pos).2.2
        then .error (.nameError ['t'])
        else .error (.unboundLocal ['x', '_', 'a', 'l', 't']) := by
    simp only [get_importance_score, h2]
    rw [if_neg h1, if_pos h3]
  refine ⟨?_, ?_, ?_⟩
  · intro v hv
    rw [hmain] at hv
    split at hv <;> exact Except.noConfusion hv
  · intro hb
    rw [hmain, if_pos hb]
  · intro hb
    rw [hmain, if_neg (by rw [hb]; exact Bool.false_ne_true)]

/-! ## Concrete annotator and record for the witnesses -/

/-- A one-gene annotator whose fasta always yields 5001 `A`s and whose
models are constant. -/
def annW : Ann where
  genes := [['G', '1']]
  chroms := [['1']]
  strands := ['+']
  tx_starts := [1]
  tx_ends := [10]
  fasta_keys := [['1']]
  fasta := fun _ _ _ => some (List.replicate 5001 'A')
  models := fun _ _ => [[0, 0, 0]]

/-- A single-allele SNV record at position 5 of chromosome 1. -/
def recordW : VcfRecord where
  chrom := ['1']
  pos := 5
  ref := ['A']
  alts := [['G']]

/-- Witness for C6: the concrete record passes all three gates and the
theorem's two implications hold for it. -/
theorem claim_C6_witness :
    (get_name_and_strand annW recordW.chrom recordW.pos).2.2 ≠ []
      ∧ ((¬ ciEq (((List.replicate 5001 'A').drop ((10000 + 0) / 2)).take
              recordW.ref.length) recordW.ref →
            get_delta_scores recordW annW 0 = [])
          ∧ (ciEq (((List.replicate 5001 'A').drop ((10000 + 0) / 2)).take
                recordW.ref.length) recordW.ref →
              get_delta_scores recordW annW 0
                = delta_loop recordW annW 0 (10000 + 0)
                    (List.replicate 5001 'A')
                    (get_name_and_strand annW recordW.chrom recordW.pos).2.2)) :=
  ⟨by decide,
   claim_C6 recordW annW 0 (List.replicate 5001 'A') (by decide) rfl
     (by decide)⟩

/-- Witness for C2: the concrete record passes the gates, its allele
binds `x_alt`, and the function raises `NameError` on `t`. -/
theorem claim_C2_witness :
    x_alt_bound recordW (get_name_and_strand annW recordW.chrom
        recordW.pos).2.2 = true
      ∧ get_importance_score recordW annW 0 = .error (.nameError ['t']) :=
  ⟨by decide,
   (claim_C2 recordW annW 0 (List.replicate 5001 'A') (by decide) rfl
      (by rw [replicate_drop]; decide)).2.1 (by decide)⟩

/-! ## Claim C8 — two-level averaging of the attribution engine -/

/-- A model output of `L` rows of 3 class probabilities (the shape
`(batch, L, 3)` with the singleton batch axis elided). -/
def Shaped (L : Nat) (a : Mat) : Prop :=
  a.length = L ∧ ∀ r ∈ a, r.length = 3

/-- An elementwise binary operation preserves the output shape. -/
lemma shaped_zipWith2 (f : ℚ → ℚ → ℚ) {L : Nat} {a b : Mat}
    (hA : Shaped L a) (hB : Shaped L b) :
    Shaped L (List.zipWith (List.zipWith f) a b) := by
  constructor
  · rw [List.length_zipWith, hA.1, hB.1, min_self]
  · intro r hr
    obtain ⟨i, hi, hr⟩ := List.mem_iff_getElem.mp hr
    rw [List.getElem_zipWith] at hr
    rw [← hr, List.length_zipWith,
      hA.2 _ (List.getElem_mem _), hB.2 _ (List.getElem_mem _), min_self]

/-- Entry of an elementwise binary operation, inside the shape bounds. -/
lemma entry_zipWith2 (f : ℚ → ℚ → ℚ) {L : Nat} {a b : Mat} {p c : Nat}
    (hA : Shaped L a) (hB : Shaped L b) (hp : p < L) (hc : c < 3) :
    entry (List.zipWith (List.zipWith f) a b) p c
      = f (entry a p c) (entry b p c) := by
  have hpa : p < a.length := by rw [hA.1]; exact hp
  have hpb : p < b.length := by rw [hB.1]; exact hp
  have hpz : p < (List.zipWith (List.zipWith f) a b).length := by
    rw [List.length_zipWith]
    omega
  have hca : c < (a[p]).length := by
    rw [hA.2 _ (List.getElem_mem hpa)]
    exact hc
  have hcb : c < (b[p]).length := by
    rw [hB.2 _ (List.getElem_mem hpb)]
    exact hc
  have hcz : c < (List.zipWith f (a[p]) (b[p])).length := by
    rw [List.length_zipWith]
    omega
  rw [entry, entry, entry, List.getD_eq_getElem _ _ hpz,
    List.getD_eq_getElem _ _ hpa, List.getD_eq_getElem _ _ hpb,
    List.getElem_zipWith, List.getD_eq_getElem _ _ hcz,
    List.getD_eq_getElem _ _ hca, List.getD_eq_getElem _ _ hcb,
    List.getElem_zipWith]

/-- `matAdd` preserves the shape. -/
lemma shaped_matAdd {L : Nat} {a b : Mat} (hA : Shaped L a)
    (hB : Shaped L b) : Shaped L (matAdd a b) :=
  shaped_zipWith2 _ hA hB

/-- `matScale` preserves the shape. -/
lemma shaped_matScale {L : Nat} (q : ℚ) {a : Mat} (hA : Shaped L a) :
    Shaped L (matScale q a) := by
  constructor
  · rw [matScale, List.length_map, hA.1]
  · intro r hr
    obtain ⟨r', hr', hrr⟩ := List.mem_map.mp hr
    rw [← hrr, List.length_map]
    exact hA.2 r' hr'

/-- Entry of a sum of matrices. -/
lemma entry_matAdd {L : Nat} {a b : Mat} {p c : Nat} (hA : Shaped L a)
    (hB : Shaped L b) (hp : p < L) (hc : c < 3) :
    entry (matAdd a b) p c = entry a p c + entry b p c :=
  entry_zipWith2 _ hA hB hp hc

/-- Entry of a difference of matrices. -/
lemma entry_matSub {L : Nat} {a b : Mat} {p c : Nat} (hA : Shaped L a)
    (hB : Shaped L b) (hp : p < L) (hc : c < 3) :
    entry (matSub a b) p c = entry a p c - entry b p c :=
  entry_zipWith2 _ hA hB hp hc

/-- Entry of a scaled matrix. -/
lemma entry_matScale {L : Nat} (q : ℚ) {a : Mat} {p c : Nat}
    (hA : Shaped L a) (hp : p < L) (hc : c < 3) :
    entry (matScale q a) p c = q * entry a p c := by
  have hpa : p < a.length := by rw [hA.1]; exact hp
  have hca : c < (a[p]).length := by
    rw [hA.2 _ (List.getElem_mem hpa)]
    exact hc
  have hpm : p < (List.map (List.map (q * ·)) a).length := by
    rw [List.length_map]
    exact hpa
  have hcm : c < (List.map (q * ·) (a[p])).length := by
    rw [List.length_map]
    exact hca
  rw [entry, entry, matScale, List.getD_eq_getElem _ _ hpm,
    List.getD_eq_getElem _ _ hpa, List.getElem_map,
    List.getD_eq_getElem _ _ hcm, List.getD_eq_getElem _ _ hca,
    List.getElem_map]

/-- Shape of the four-summand addition trees of the perturbation loop. -/
lemma shaped_addtree4 {L : Nat} {a b c' d : Mat} (hA : Shaped L a)
    (hB : Shaped L b) (hC : Shaped L c') (hD : Shaped L d) :
    Shaped L (matAdd (matAdd (matAdd a b) c') d) :=
  shaped_matAdd (shaped_matAdd (shaped_matAdd hA hB) hC) hD

/-- Shape of the five-summand addition trees of the ensemble means. -/
lemma shaped_addtree5 {L : Nat} {a b c' d e : Mat} (hA : Shaped L a)
    (hB : Shaped L b) (hC : Shaped L c') (hD : Shaped L d)
    (hE : Shaped L e) :
    Shaped L (matAdd (matAdd (matAdd (matAdd a b) c') d) e) :=
  shaped_matAdd (shaped_addtree4 hA hB hC hD) hE

/-- Entry of a four-summand addition tree. -/
lemma entry_addtree4 {L : Nat} {a b c' d : Mat} {p cc : Nat}
    (hA : Shaped L a) (hB : Shaped L b) (hC : Shaped L c')
    (hD : Shaped L d) (hp : p < L) (hc : cc < 3) :
    entry (matAdd (matAdd (matAdd a b) c') d) p cc
      = entry a p cc + entry b p cc + entry c' p cc + entry d p cc := by
  rw [entry_matAdd (shaped_matAdd (shaped_matAdd hA hB) hC) hD hp hc,
    entry_matAdd (shaped_matAdd hA hB) hC hp hc, entry_matAdd hA hB hp hc]

/-- Entry of a five-summand addition tree. -/
lemma entry_addtree5 {L : Nat} {a b c' d e : Mat} {p cc : Nat}
    (hA : Shaped L a) (hB : Shaped L b) (hC : Shaped L c')
    (hD : Shaped L d) (hE : Shaped L e) (hp : p < L) (hc : cc < 3) :
    entry (matAdd (matAdd (matAdd (matAdd a b) c') d) e) p cc
      = entry a p cc + entry b p cc + entry c' p cc + entry d p cc
        + entry e p cc := by
  rw [entry_matAdd (shaped_addtree4 hA hB hC hD) hE hp hc,
    entry_addtree4 hA hB hC hD hp hc]

/-- Shape of an ensemble mean. -/
lemma shaped_ensemble5 {L : Nat} (models : Fin 5 → Mat → Mat)
    (hdim : ∀ (m : Fin 5) (M : Mat), Shaped L (models m M)) (x : Mat) :
    Shaped L (ensemble5 models x) :=
  shaped_matScale _ (shaped_addtree5 (hdim 0 x) (hdim 1 x) (hdim 2 x)
    (hdim 3 x) (hdim 4 x))

/-- Entry of an ensemble mean: one fifth of the sum of the five model
entries. -/
lemma entry_ensemble5 {L p c : Nat} (models : Fin 5 → Mat → Mat)
    (hdim : ∀ (m : Fin 5) (M : Mat), Shaped L (models m M))
    (hp : p < L) (hc : c < 3) (x : Mat) :
    entry (ensemble5 models x) p c
      = (1 / 5) * (entry (models 0 x) p c + entry (models 1 x) p c
          + entry (models 2 x) p c + entry (models 3 x) p c
          + entry (models 4 x) p c) := by
  rw [ensemble5,
    entry_matScale _ (shaped_addtree5 (hdim 0 x) (hdim 1 x) (hdim 2 x)
      (hdim 3 x) (hdim 4 x)) hp hc,
    entry_addtree5 (hdim 0 x) (hdim 1 x) (hdim 2 x) (hdim 3 x)
      (hdim 4 x) hp hc]

/-- Claim C8: for every perturbed position `i` of the 1001 central
positions, the recorded attribution entry equals the baseline ensemble
mean minus the average over the 4 counterfactual bases of the 5-model
ensemble mean — equivalently, minus the sum of the 20 counterfactual
predictions divided by 20 — at every output position and class. -/
theorem claim_C8 (models : Fin 5 → Mat → Mat) (x : Mat) (L i p c : Nat)
    (hdim : ∀ (m : Fin 5) (M : Mat), Shaped L (models m M))
    (hi : i < 1001) (hp : p < L) (hc : c < 3) :
    entry ((calculate_importance_score models x).getD i []) p c
        = entry (ensemble5 models x) p c
          - (∑ b : Fin 4, entry (ensemble5 models
              (x.set ((x.length - 1001) / 2 + i) (baseVec b))) p c) / 4
      ∧ entry ((calculate_importance_score models x).getD i []) p c
        = entry (ensemble5 models x) p c
          - (∑ b : Fin 4, ∑ m : Fin 5, entry (models m
              (x.set ((x.length - 1001) / 2 + i) (baseVec b))) p c) / 20 := by
  have hb0 : baseVec 0 = [1, 0, 0, 0] := rfl
  have hb1 : baseVec 1 = [0, 1, 0, 0] := rfl
  have hb2 : baseVec 2 = [0, 0, 1, 0] := rfl
  have hb3 : baseVec 3 = [0, 0, 0, 1] := rfl
  have hrow : (calculate_importance_score models x).getD i []
      = calc_importance_row models x i := by
    have hlen : i < ((List.range 1001).map
        (calc_importance_row models x)).length := by
      rw [List.length_map, List.length_range]
      exact hi
    rw [calculate_importance_score, List.getD_eq_getElem _ _ hlen,
      List.getElem_map, List.getElem_range]
  have hI : ∀ (m : Fin 5) (a b c' d : Mat),
      Shaped L (matAdd (matAdd (matAdd (models m a) (models m b))
        (models m c')) (models m d)) :=
    fun m a b c' d => shaped_addtree4 (hdim m a) (hdim m b) (hdim m c')
      (hdim m d)
  have hmain : entry ((calculate_importance_score models x).getD i []) p c
      = entry (ensemble5 models x) p c
        - (∑ b : Fin 4, ∑ m : Fin 5, entry (models m
            (x.set ((x.length - 1001) / 2 + i) (baseVec b))) p c) / 20 := by
    rw [hrow]
    simp only [calc_importance_row]
    rw [entry_matSub (shaped_ensemble5 models hdim x)
      (shaped_matScale _ (shaped_addtree5 (hI 0 _ _ _ _) (hI 1 _ _ _ _)
        (hI 2 _ _ _ _) (hI 3 _ _ _ _) (hI 4 _ _ _ _))) hp hc]
    rw [entry_matScale _ (shaped_addtree5 (hI 0 _ _ _ _) (hI 1 _ _ _ _)
      (hI 2 _ _ _ _) (hI 3 _ _ _ _) (hI 4 _ _ _ _)) hp hc]
    rw [entry_addtree5 (hI 0 _ _ _ _) (hI 1 _ _ _ _) (hI 2 _ _ _ _)
      (hI 3 _ _ _ _) (hI 4 _ _ _ _) hp hc]
    rw [entry_addtree4 (hdim 0 _) (hdim 0 _) (hdim 0 _) (hdim 0 _) hp hc,
      entry_addtree4 (hdim 1 _) (hdim 1 _) (hdim 1 _) (hdim 1 _) hp hc,
      entry_addtree4 (hdim 2 _) (hdim 2 _) (hdim 2 _) (hdim 2 _) hp hc,
      entry_addtree4 (hdim 3 _) (hdim 3 _) (hdim 3 _) (hdim 3 _) hp hc,
      entry_addtree4 (hdim 4 _) (hdim 4 _) (hdim 4 _) (hdim 4 _) hp hc]
    rw [Fin.sum_univ_four]
    simp only [Fin.sum_univ_five]
    rw [hb0, hb1, hb2, hb3]
    ring
  refine ⟨?_, hmain⟩
  rw [hmain, sub_right_inj]
  simp only [Fin.sum_univ_four, entry_ensemble5 models hdim hp hc,
    Fin.sum_univ_five]
  ring

/-- Witness for C8 with constant models of output shape `(1, 3)`. -/
theorem claim_C8_witness :
    (0 : Nat) < 1001
      ∧ (entry ((calculate_importance_score
            (fun _ _ => [[(0 : ℚ), 0, 0]]) []).getD 0 []) 0 0
          = entry (ensemble5 (fun _ _ => [[(0 : ℚ), 0, 0]]) []) 0 0
            - (∑ b : Fin 4, entry (ensemble5 (fun _ _ => [[(0 : ℚ), 0, 0]])
                (([] : Mat).set ((([] : Mat).length - 1001) / 2 + 0)
                  (baseVec b))) 0 0) / 4) :=
  ⟨by decide,
   (claim_C8 (fun _ _ => [[(0 : ℚ), 0, 0]]) [] 1 0 0 0
      (fun _ _ => ⟨rfl, by intro r hr; simp at hr; subst hr; rfl⟩)
      (by decide) (by decide) (by decide)).1⟩

end SpliceAI

